import Mathlib

/-!
Shallow embedding of the job-orchestration core of `src/app.py`
(YouTube → MP3 converter): the extraction fallback strategy
(`download_task`), the job registry (`job_queue`), the batch orchestrator
(`batch_enqueue` / `batch_download_task`), and the cross-platform
(Spotify) resolver (`spotify_download` / `spotify_batch_task`).

External collaborators (yt-dlp, the filesystem, YouTube search) are
modelled as oracles passed in as functions:
  * `env  : String → AttemptResult` — per client identity, the outcome of
    `ydl.extract_info(url, download=True)` plus the subsequent
    output-file existence check (app.py lines 548-570);
  * `tenv : String → Option String` — per client identity, the title
    returned by the metadata-only pass in `fetch_title_with_ytdlp`
    (`none` = the attempt raised, app.py lines 183-196);
  * `senv : String → Option String` — per search query, the URL of the
    first YouTube search result in `search_youtube_for_track`
    (app.py lines 491-507).
-/

namespace YTApp

/-- Job / batch-member status strings used by app.py:
"queued", "searching", "downloading", "done", "error". -/
inductive Status
  | queued
  | searching
  | downloading
  | done
  | error
deriving DecidableEq, Repr

/-- Rank of a status in the state machine as the spec states it
(§4.5: `queued → [searching] → downloading → done | error`). -/
def specRank : Status → Nat
  | .queued => 0
  | .searching => 1
  | .downloading => 2
  | .done => 3
  | .error => 3

/-- Rank of a status in the order the code actually walks
(cross-platform members enter `searching` before `queued`,
app.py lines 749 and 795). -/
def codeRank : Status → Nat
  | .searching => 0
  | .queued => 1
  | .downloading => 2
  | .done => 3
  | .error => 3

/-- Collapse consecutive duplicate statuses: the sequence of values a
poller can observe (re-assigning the same status is not a transition). -/
def dedupConsec : List Status → List Status
  | [] => []
  | [a] => [a]
  | a :: b :: r => if a = b then dedupConsec (b :: r) else a :: dedupConsec (b :: r)

/-- Each adjacent pair of a status sequence strictly increases in rank. -/
def forwardWalkB (rank : Status → Nat) : List Status → Bool
  | [] => true
  | [_] => true
  | a :: b :: r => decide (rank a < rank b) && forwardWalkB rank (b :: r)

/-- A status sequence is a strictly forward walk for a given ranking. -/
def ForwardWalk (rank : Status → Nat) (l : List Status) : Prop :=
  forwardWalkB rank l = true

instance (rank : Status → Nat) (l : List Status) : Decidable (ForwardWalk rank l) :=
  inferInstanceAs (Decidable (_ = true))

/-- app.py line 49 (module constant) and line 546 (local `clients_to_try`
in `download_task`): the same fixed ordered client-identity list. -/
def CLIENTS_TO_TRY : List String :=
  ["ios", "android", "web", "mweb", "tv_embedded", "mediaconnect"]

/-- Outcome of one client-identity attempt in `download_task`
(app.py lines 548-570):
  * `ok t f` — `extract_info` succeeded with title `t` and an output
    file was located at path `f`;
  * `missing t` — `extract_info` succeeded but no output file could be
    located (`raise FileNotFoundError("File not found")`, line 566);
  * `failed m` — `extract_info` raised, `str(e) = m`. -/
inductive AttemptResult
  | ok (title : String) (file : String)
  | missing (title : String)
  | failed (msg : String)
deriving DecidableEq, Repr

/-- An attempt counts as a success exactly when the code reaches the
`return` on line 564: extraction succeeded and the file exists. -/
def AttemptResult.isOk : AttemptResult → Bool
  | .ok _ _ => true
  | _ => false

/-- The string captured into `last_error` (line 568, `str(e)`) when the
attempt fails: the raised message, or `"File not found"` for the
FileNotFoundError raised on line 566. -/
def failText : AttemptResult → String
  | .ok _ _ => ""
  | .missing _ => "File not found"
  | .failed m => m

/-- A `job_queue` record (created at app.py lines 854, 581, 814-822).
`history` is the model-level log of every value assigned to
`job["status"]`, oldest first, including the creation value. -/
structure Job where
  status : Status
  history : List Status
  url : Option String
  title : String
  quality : String
  error : Option String
  file_path : Option String
deriving DecidableEq, Repr

/-- Assign `job["status"] = s` (and log it in the history). -/
def jobPush (s : Status) (j : Job) : Job :=
  { j with status := s, history := j.history ++ [s] }

/-- Observable side effects of the download worker.  `scheduleCleanup`
is the deferred file deletion described by the spec's Artifact Lifecycle
Manager; app.py contains no call that would emit it (no timer, no
`os.remove`/`unlink` anywhere in the file). -/
inductive Effect
  | engineDownload (client : String)
  | registryWrite (s : Status)
  | scheduleCleanup (path : String) (delaySeconds : Nat)
deriving DecidableEq, Repr

def Effect.isCleanup : Effect → Bool
  | .scheduleCleanup _ _ => true
  | _ => false

/-- Result of running `download_task`: the final registry record, the
client identities attempted (in order), and the effect trace. -/
structure DownloadRun where
  job : Job
  attempted : List String
  effects : List Effect
deriving DecidableEq, Repr

/-- The `for client in clients_to_try:` loop of `download_task`
(app.py lines 548-573), with `last` the current `last_error`
(`none` = Python `None`).  On success (line 562) the job is updated to
`done` with the title and file path and the loop returns; on any failure
`last_error` is recorded and the loop continues; when the list is
exhausted the job is updated to `error` with
`f"Download failed. {last_error}"` (line 573). -/
def runClients (env : String → AttemptResult) :
    List String → Option String → Job → DownloadRun
  | [], last, j =>
    { job := { jobPush .error j with
                 error := some ("Download failed. " ++ last.getD "None") }
      attempted := []
      effects := [Effect.registryWrite .error] }
  | c :: rest, last, j =>
    match env c with
    | .ok t f =>
      { job := { jobPush .done j with title := t, file_path := some f }
        attempted := [c]
        effects := [Effect.engineDownload c, Effect.registryWrite .done] }
    | .missing _t =>
      let r := runClients env rest (some "File not found") j
      { r with attempted := c :: r.attempted
               effects := Effect.engineDownload c :: r.effects }
    | .failed m =>
      let r := runClients env rest (some m) j
      { r with attempted := c :: r.attempted
               effects := Effect.engineDownload c :: r.effects }

/-- `download_task(job_id, url, quality)` (app.py lines 538-573), acting
on the registry record `j` of `job_id`: sets status `"downloading"`
(line 540) and runs the client fallback loop with `last_error = None`. -/
def download_task (env : String → AttemptResult) (j : Job) : DownloadRun :=
  let r := runClients env CLIENTS_TO_TRY none (jobPush .downloading j)
  { r with effects := Effect.registryWrite .downloading :: r.effects }

/-- The sublist of clients actually attempted: every client up to and
including the first successful one (all of them when none succeeds). -/
def attemptedClients (env : String → AttemptResult) : List String → List String
  | [] => []
  | c :: rest => if (env c).isOk then [c] else c :: attemptedClients env rest

/-! ### Job registry (`job_queue`, app.py line 67) -/

/-- The shared `job_queue` dict, as an association list keyed by job id. -/
def JobQueue := List (String × Job)
deriving DecidableEq

/-- `job_queue.get(job_id)`. -/
def jqGet (jq : JobQueue) (jobId : String) : Option Job :=
  (List.find? (fun p => decide (p.1 = jobId)) jq).map Prod.snd

/-- `job_queue[job_id] = j` (dict assignment: insert or overwrite). -/
def jqSet (jq : JobQueue) (jobId : String) (j : Job) : JobQueue :=
  (jobId, j) :: List.filter (fun p => !decide (p.1 = jobId)) jq

/-- `GET /status/<job_id>` (app.py lines 904-909): `none` models the 404
"Job not found" response, otherwise the (status, title, error, quality)
payload. -/
def get_status (jq : JobQueue) (jobId : String) :
    Option (Status × String × Option String × String) :=
  (jqGet jq jobId).map (fun j => (j.status, j.title, j.error, j.quality))

/-! ### Single-job submission (`/enqueue`, app.py lines 841-858) -/

/-- Events on the calling path of the `/enqueue` request handler. -/
inductive SubmitEvent
  | engineMetadataCall (client : String)
  | createRecord
  | spawnWorker
deriving DecidableEq, Repr

/-- The client loop of `fetch_title_with_ytdlp` (app.py lines 183-196):
a metadata-only `extract_info` per client identity, returning the first
successful title, or `"Unknown"` when every client raises.  Also returns
the clients attempted. -/
def fetchTitleGo (tenv : String → Option String) : List String → String × List String
  | [] => ("Unknown", [])
  | c :: rest =>
    match tenv c with
    | some t => (t, [c])
    | none =>
      let r := fetchTitleGo tenv rest
      (r.1, c :: r.2)

def fetch_title_with_ytdlp (tenv : String → Option String) : String × List String :=
  fetchTitleGo tenv CLIENTS_TO_TRY

/-- `if quality not in ["128","192","256","320"]: quality = "192"`
(app.py lines 847, 731-732, 866-867). -/
def defaultQuality (q : String) : String :=
  if q = "128" ∨ q = "192" ∨ q = "256" ∨ q = "320" then q else "192"

/-- `POST /enqueue` (app.py lines 841-858): fetches a best-effort title
synchronously, creates the `queued` registry record, spawns the download
thread and returns.  The second component is the ordered list of events
performed on the calling path before the response is returned. -/
def enqueue (tenv : String → Option String) (url qualityReq : String) :
    Job × List SubmitEvent :=
  let quality := defaultQuality qualityReq
  let r := fetch_title_with_ytdlp tenv
  let j : Job :=
    { status := .queued, history := [.queued], url := some url, title := r.1,
      quality := quality, error := none, file_path := none }
  (j, r.2.map SubmitEvent.engineMetadataCall ++
        [SubmitEvent.createRecord, SubmitEvent.spawnWorker])

/-- The registry record of a single job after its background
`download_task` thread has run. -/
def single_job_final (tenv : String → Option String)
    (env : String → AttemptResult) (url quality : String) : Job :=
  (download_task env (enqueue tenv url quality).1).job

/-! ### Batch orchestrator (app.py lines 575-592, 860-888) -/

/-- Status of a batch record: `"processing"` or `"done"`. -/
inductive BatchStatus
  | processing
  | done
deriving DecidableEq, Repr

/-- One entry of `batch["jobs"]` (app.py line 876 / lines 746-754).
`history` logs every value assigned to the member's `"status"` key,
oldest first, including the creation value. -/
structure BatchJob where
  job_id : String
  url : Option String
  status : Status
  history : List Status
  title : String
  search_query : Option String
  error : Option String
  file_path : Option String
deriving DecidableEq, Repr

/-- Assign `job["status"] = s` on a batch member (and log it). -/
def pushStatus (s : Status) (mj : BatchJob) : BatchJob :=
  { mj with status := s, history := mj.history ++ [s] }

/-- A `batch_queue` record (app.py lines 874-877 / 756-765). -/
structure Batch where
  status : BatchStatus
  total : Nat
  completed : Nat
  failed : Nat
  current_index : Nat
  quality : String
  jobs : List BatchJob
deriving DecidableEq, Repr

/-- A plain batch member at creation (app.py line 876):
`{"job_id": ..., "url": url, "status": "queued", "title": "Waiting...",
"error": None, "file_path": None}`. -/
def mkBatchJob (jobId url : String) : BatchJob :=
  { job_id := jobId, url := some url, status := .queued, history := [.queued],
    title := "Waiting...", search_query := none, error := none, file_path := none }

/-- `POST /batch_enqueue` (app.py lines 860-881): creates the batch
record with all members `queued` and spawns `batch_download_task`.
`ids` are the `uuid4` job ids generated for the members, one per URL.
The `job_queue` registry is not touched. -/
def batch_enqueue (urls ids : List String) (qualityReq : String) : Batch :=
  { status := .processing, total := urls.length, completed := 0, failed := 0,
    current_index := 0, quality := defaultQuality qualityReq,
    jobs := (ids.zip urls).map (fun p => mkBatchJob p.1 p.2) }

/-- The registry record created just before a batch member is downloaded
(app.py line 581 with title `"Fetching..."`, line 814-822 with the
member's title). -/
def mkRegistryJob (url title quality : String) : Job :=
  { status := .downloading, history := [.downloading], url := some url,
    title := title, quality := quality, error := none, file_path := none }

/-- Copy the finished registry record back onto the batch member
(app.py lines 584-587 and 828-831): status, title, error, file_path. -/
def memberAfterDownload (j : Job) (mj : BatchJob) : BatchJob :=
  { pushStatus j.status mj with
      title := j.title, error := j.error, file_path := j.file_path }

/-- `completed` / `failed` counter update after one member
(app.py lines 588-591 and 833-836). -/
def countInc (s : Status) (completed failed : Nat) : Nat × Nat :=
  if s = .done then (completed + 1, failed)
  else if s = .error then (completed, failed + 1)
  else (completed, failed)

/-- What one iteration of the `batch_download_task` loop does to member
`mj` with its URL (app.py lines 578-587): member set `downloading`,
registry record created, `download_task` run, result copied back. -/
def plainMemberAfter (env : String → String → AttemptResult)
    (quality url : String) (mj : BatchJob) : BatchJob :=
  memberAfterDownload
    ((download_task (env url) (mkRegistryJob url "Fetching..." quality)).job)
    (pushStatus .downloading mj)

/-- The `for i, url in enumerate(urls):` loop of `batch_download_task`
(app.py lines 577-591), threading the registry, the loop index, the two
counters and `current_index`, over the member/URL pairs.  Returns the
final registry, counters, `current_index` and member list. -/
def batchLoopGo (env : String → String → AttemptResult) (quality : String) :
    JobQueue → Nat → Nat → Nat → Nat → List (BatchJob × String) →
    JobQueue × Nat × Nat × Nat × List BatchJob
  | jq, _i, completed, failed, cur, [] => (jq, completed, failed, cur, [])
  | jq, i, completed, failed, _cur, (mj, url) :: rest =>
    let j0 := mkRegistryJob url "Fetching..." quality
    let j1 := (download_task (env url) j0).job
    let jq2 := jqSet (jqSet jq mj.job_id j0) mj.job_id j1
    let cf := countInc j1.status completed failed
    let r := batchLoopGo env quality jq2 (i + 1) cf.1 cf.2 i rest
    (r.1, r.2.1, r.2.2.1, r.2.2.2.1, plainMemberAfter env quality url mj :: r.2.2.2.2)

/-- `batch_download_task(batch_id, urls, quality)` (app.py lines
575-592): processes every member sequentially, then sets the batch
`done`. -/
def batch_download_task (env : String → String → AttemptResult)
    (quality : String) (jq : JobQueue) (b : Batch) (urls : List String) :
    JobQueue × Batch :=
  let r := batchLoopGo env quality jq 0 b.completed b.failed b.current_index
      (b.jobs.zip urls)
  (r.1, { b with status := .done, completed := r.2.1, failed := r.2.2.1,
                 current_index := r.2.2.2.1, jobs := r.2.2.2.2 })

/-- The program state after the first `n` iterations of the
`batch_download_task` loop (the batch status is still `processing`;
members from index `n` on are untouched). -/
def batch_mid (env : String → String → AttemptResult) (quality : String)
    (jq : JobQueue) (b : Batch) (urls : List String) (n : Nat) :
    JobQueue × Batch :=
  let pairs := b.jobs.zip urls
  let r := batchLoopGo env quality jq 0 b.completed b.failed b.current_index
      (pairs.take n)
  (r.1, { b with completed := r.2.1, failed := r.2.2.1,
                 current_index := r.2.2.2.1,
                 jobs := r.2.2.2.2 ++ (pairs.drop n).map Prod.fst })

/-- The member list of the `GET /batch_status` payload (app.py line 888):
`(job_id, url, status, title, error)` per member. -/
def batch_status_jobs (b : Batch) : List (String × Option String × Status × String × Option String) :=
  b.jobs.map (fun j => (j.job_id, j.url, j.status, j.title, j.error))

/-! ### Cross-platform (Spotify) resolver
(app.py lines 723-777 and 779-839) -/

/-- A cross-platform track descriptor as posted to `/spotify_download`:
title, artist, and the optional precomputed search query. -/
structure Track where
  title : String
  artist : String
  search_query : Option String
deriving DecidableEq, Repr

/-- A cross-platform batch member at creation (app.py lines 746-754):
status `"searching"`, no URL yet, title `"<title> - <artist>"`,
`search_query` defaulted to `"<title> <artist>"`. -/
def mkSpotifyJob (jobId : String) (t : Track) : BatchJob :=
  { job_id := jobId, url := none, status := .searching, history := [.searching],
    title := t.title ++ " - " ++ t.artist,
    search_query := some (t.search_query.getD (t.title ++ " " ++ t.artist)),
    error := none, file_path := none }

/-- `POST /spotify_download` (app.py lines 723-777): truncates to 50
tracks, creates the batch record with all members `searching`, and
spawns `spotify_batch_task`.  `ids` are the generated member job ids.
The `job_queue` registry is not touched. -/
def spotify_download (tracks : List Track) (ids : List String)
    (qualityReq : String) : Batch :=
  let ts := tracks.take 50
  { status := .processing, total := ts.length, completed := 0, failed := 0,
    current_index := 0, quality := defaultQuality qualityReq,
    jobs := (ids.zip ts).map (fun p => mkSpotifyJob p.1 p.2) }

/-- Phase-1 treatment of one member (app.py lines 789-801): search
YouTube for `job.get("search_query", job["title"])`; on a hit set the
URL and status `"queued"`, otherwise status `"error"` with
`error = "No YouTube match found"`. -/
def phase1Member (senv : String → Option String) (mj : BatchJob) : BatchJob :=
  match senv (mj.search_query.getD mj.title) with
  | some yturl => pushStatus .queued { mj with url := some yturl }
  | none => { pushStatus .error mj with error := some "No YouTube match found" }

/-- Phase 1 of `spotify_batch_task` (app.py lines 786-801): the search
loop, threading the loop index, the `failed` counter (incremented
immediately on a miss, line 800) and `current_index`.  Returns the final
`failed` counter, `current_index`, and member list. -/
def phase1Go (senv : String → Option String) :
    Nat → Nat → Nat → List BatchJob → Nat × Nat × List BatchJob
  | _i, failed, cur, [] => (failed, cur, [])
  | i, failed, _cur, mj :: rest =>
    match senv (mj.search_query.getD mj.title) with
    | some yturl =>
      let r := phase1Go senv (i + 1) failed i rest
      (r.1, r.2.1, pushStatus .queued { mj with url := some yturl } :: r.2.2)
    | none =>
      let r := phase1Go senv (i + 1) (failed + 1) i rest
      (r.1, r.2.1,
        ({ pushStatus .error mj with error := some "No YouTube match found" }) :: r.2.2)

/-- The phase-2 guard (app.py line 806): a member is downloaded exactly
when its status is `"queued"` and it has a URL; anything else is
skipped with `continue`. -/
def phase2Processes (mj : BatchJob) : Bool :=
  decide (mj.status = Status.queued) && mj.url.isSome

/-- The registry record a phase-2 member ends with after its
`download_task` run (app.py lines 813-824). -/
def phase2DownJob (env : String → String → AttemptResult)
    (quality : String) (mj : BatchJob) : Job :=
  let url := mj.url.getD ""
  (download_task (env url) (mkRegistryJob url mj.title quality)).job

/-- Phase-2 treatment of one member (app.py lines 805-836): skipped
members are left untouched; processed members are set `"downloading"`,
downloaded, and updated from the finished registry record. -/
def phase2Member (env : String → String → AttemptResult)
    (quality : String) (mj : BatchJob) : BatchJob :=
  if phase2Processes mj then
    memberAfterDownload (phase2DownJob env quality mj) (pushStatus .downloading mj)
  else mj

/-- Phase 2 of `spotify_batch_task` (app.py lines 803-836): the download
loop, threading the registry, the loop index, both counters and
`current_index` (`current_index` is not updated for skipped members —
the `continue` on line 807 fires before line 809). -/
def phase2Go (env : String → String → AttemptResult) (quality : String) :
    JobQueue → Nat → Nat → Nat → Nat → List BatchJob →
    JobQueue × Nat × Nat × Nat × List BatchJob
  | jq, _i, completed, failed, cur, [] => (jq, completed, failed, cur, [])
  | jq, i, completed, failed, cur, mj :: rest =>
    if phase2Processes mj then
      let url := mj.url.getD ""
      let j0 := mkRegistryJob url mj.title quality
      let j1 := (download_task (env url) j0).job
      let jq2 := jqSet (jqSet jq mj.job_id j0) mj.job_id j1
      let cf := countInc j1.status completed failed
      let r := phase2Go env quality jq2 (i + 1) cf.1 cf.2 i rest
      (r.1, r.2.1, r.2.2.1, r.2.2.2.1, phase2Member env quality mj :: r.2.2.2.2)
    else
      let r := phase2Go env quality jq (i + 1) completed failed cur rest
      (r.1, r.2.1, r.2.2.1, r.2.2.2.1, mj :: r.2.2.2.2)

/-- The batch state right after phase 1 of `spotify_batch_task` (before
any download starts). -/
def spotify_after_phase1 (senv : String → Option String) (b : Batch) : Batch :=
  let r := phase1Go senv 0 b.failed b.current_index b.jobs
  { b with failed := r.1, current_index := r.2.1, jobs := r.2.2 }

/-- `spotify_batch_task(batch_id, quality)` (app.py lines 779-839):
phase 1 (search) over all members, phase 2 (download) over the
successfully resolved members, then the batch is set `done`. -/
def spotify_batch_task (senv : String → Option String)
    (env : String → String → AttemptResult) (quality : String)
    (jq : JobQueue) (b : Batch) : JobQueue × Batch :=
  let p1 := phase1Go senv 0 b.failed b.current_index b.jobs
  let p2 := phase2Go env quality jq 0 b.completed p1.1 p1.2.1 p1.2.2
  (p2.1, { b with status := .done, completed := p2.2.1, failed := p2.2.2.1,
                  current_index := p2.2.2.2.1, jobs := p2.2.2.2.2 })

/-! ### Concrete oracles used by witnesses and counterexamples -/

/-- Every client identity raises, each with its own message. -/
def envAllFail : String → AttemptResult := fun c => .failed (c ++ " boom")

/-- `ios` and `android` fail, `web` succeeds. -/
def envWebOk : String → AttemptResult :=
  fun c => if c = "web" then .ok "T" "/tmp/yt_x.mp3" else .failed (c ++ " down")

/-- The first client identity succeeds immediately. -/
def envIosOk : String → AttemptResult := fun _ => .ok "Song" "/tmp/yt_abc.mp3"

/-- `ios` reports success but the output file is missing; every later
identity would succeed. -/
def envMissIos : String → AttemptResult :=
  fun c => if c = "ios" then .missing "T" else .ok "Other" "/tmp/yt_b.mp3"

/-- Title lookup: `ios` answers, the rest raise. -/
def tenvIos : String → Option String := fun c => if c = "ios" then some "T" else none

/-- YouTube search that always finds the same video. -/
def senvHit : String → Option String :=
  fun _ => some "https://www.youtube.com/watch?v=abc"

/-- YouTube search that never finds anything. -/
def senvNone : String → Option String := fun _ => none

/-- Per-URL download oracle: `ios` succeeds for every URL. -/
def envSong : String → String → AttemptResult :=
  fun _u c => if c = "ios" then .ok "Song" "/tmp/yt_a.mp3" else .failed "x"

/-- Per-URL download oracle: every client fails for `"u2"`, otherwise
`ios` succeeds. -/
def envU2Fails : String → String → AttemptResult :=
  fun u c => if u = "u2" then .failed "boom"
             else if c = "ios" then .ok "Song" "/tmp/yt_a.mp3" else .failed "x"

/-- A fresh single-job registry record, as created by `/enqueue`. -/
def jInit : Job :=
  { status := .queued, history := [.queued], url := some "u", title := "t",
    quality := "192", error := none, file_path := none }

/-- A sample track descriptor. -/
def trkTA : Track := { title := "T", artist := "A", search_query := none }

/-! ## Lemmas about the fallback loop -/

theorem runClients_attempted (env : String → AttemptResult)
    (cs : List String) (last : Option String) (j : Job) :
    (runClients env cs last j).attempted = attemptedClients env cs := by
  induction cs generalizing last with
  | nil => rfl
  | cons c rest ih =>
    cases h : env c with
    | ok t f => simp [runClients, attemptedClients, h, AttemptResult.isOk]
    | missing t => simp [runClients, attemptedClients, h, AttemptResult.isOk, ih]
    | failed m => simp [runClients, attemptedClients, h, AttemptResult.isOk, ih]

theorem download_task_attempted (env : String → AttemptResult) (j : Job) :
    (download_task env j).attempted = attemptedClients env CLIENTS_TO_TRY := by
  simp [download_task, runClients_attempted]

theorem runClients_terminal (env : String → AttemptResult)
    (cs : List String) (last : Option String) (j : Job) :
    ∃ f, (runClients env cs last j).job.status = f ∧
      (f = Status.done ∨ f = Status.error) ∧
      (runClients env cs last j).job.history = j.history ++ [f] := by
  induction cs generalizing last with
  | nil => exact ⟨.error, rfl, Or.inr rfl, rfl⟩
  | cons c rest ih =>
    cases h : env c with
    | ok t f =>
      exact ⟨.done, by simp [runClients, h, jobPush], Or.inl rfl,
             by simp [runClients, h, jobPush]⟩
    | missing t => simpa [runClients, h] using ih (some "File not found")
    | failed m => simpa [runClients, h] using ih (some m)

theorem download_task_job (env : String → AttemptResult) (j : Job) :
    ∃ f, (download_task env j).job.status = f ∧
      (f = Status.done ∨ f = Status.error) ∧
      (download_task env j).job.history = j.history ++ [Status.downloading, f] := by
  obtain ⟨f, h1, h2, h3⟩ :=
    runClients_terminal env CLIENTS_TO_TRY none (jobPush .downloading j)
  refine ⟨f, ?_, h2, ?_⟩
  · simpa [download_task] using h1
  · simpa [download_task, jobPush] using h3

theorem download_status_terminal (env : String → AttemptResult) (j : Job) :
    (download_task env j).job.status = Status.done ∨
    (download_task env j).job.status = Status.error := by
  obtain ⟨f, h1, h2, -⟩ := download_task_job env j
  cases h2 with
  | inl h => exact Or.inl (h ▸ h1)
  | inr h => exact Or.inr (h ▸ h1)

theorem attemptedClients_append_fail (env : String → AttemptResult)
    (pre l : List String) (hpre : ∀ x ∈ pre, (env x).isOk = false) :
    attemptedClients env (pre ++ l) = pre ++ attemptedClients env l := by
  induction pre with
  | nil => rfl
  | cons a pre ih =>
    have ha := hpre a (by simp)
    simp only [List.cons_append, attemptedClients, ha, Bool.false_eq_true, if_false,
      List.append_eq]
    rw [ih (fun x hx => hpre x (by simp [hx]))]

theorem attemptedClients_first_ok (env : String → AttemptResult)
    (pre : List String) (c : String) (post : List String)
    (hpre : ∀ x ∈ pre, (env x).isOk = false) (hc : (env c).isOk = true) :
    attemptedClients env (pre ++ c :: post) = pre ++ [c] := by
  rw [attemptedClients_append_fail env pre _ hpre]
  simp [attemptedClients, hc]

theorem attemptedClients_all_fail (env : String → AttemptResult)
    (cs : List String) (h : ∀ x ∈ cs, (env x).isOk = false) :
    attemptedClients env cs = cs := by
  induction cs with
  | nil => rfl
  | cons c rest ih =>
    have hc := h c (by simp)
    simp only [attemptedClients, hc, Bool.false_eq_true, if_false]
    rw [ih (fun x hx => h x (by simp [hx]))]

theorem attemptedClients_extends (env : String → AttemptResult) (cs : List String) :
    ∃ t, attemptedClients env cs ++ t = cs := by
  induction cs with
  | nil => exact ⟨[], rfl⟩
  | cons c rest ih =>
    by_cases h : (env c).isOk = true
    · exact ⟨rest, by simp [attemptedClients, h]⟩
    · have h' : (env c).isOk = false := by simpa using h
      obtain ⟨t, ht⟩ := ih
      refine ⟨t, ?_⟩
      simp only [attemptedClients, h', Bool.false_eq_true, if_false, List.cons_append]
      rw [ht]

theorem runClients_first_ok (env : String → AttemptResult)
    (pre : List String) (c : String) (post : List String)
    (last : Option String) (j : Job) (t f : String)
    (hpre : ∀ x ∈ pre, (env x).isOk = false)
    (hc : env c = AttemptResult.ok t f) :
    (runClients env (pre ++ c :: post) last j).job =
      { jobPush .done j with title := t, file_path := some f } := by
  induction pre generalizing last with
  | nil => simp [runClients, hc]
  | cons a pre ih =>
    have ha := hpre a (by simp)
    have hpre' : ∀ x ∈ pre, (env x).isOk = false := fun x hx => hpre x (by simp [hx])
    cases henv : env a with
    | ok t' f' => rw [henv] at ha; simp [AttemptResult.isOk] at ha
    | missing t' => simpa [runClients, henv] using ih (some "File not found") hpre'
    | failed m => simpa [runClients, henv] using ih (some m) hpre'

theorem runClients_all_fail (env : String → AttemptResult)
    (init : List String) (lastc : String) (last : Option String) (j : Job)
    (h : ∀ x ∈ init ++ [lastc], (env x).isOk = false) :
    (runClients env (init ++ [lastc]) last j).job.status = Status.error ∧
    (runClients env (init ++ [lastc]) last j).job.error =
      some ("Download failed. " ++ failText (env lastc)) := by
  induction init generalizing last with
  | nil =>
    have hl := h lastc (by simp)
    cases henv : env lastc with
    | ok t f => rw [henv] at hl; simp [AttemptResult.isOk] at hl
    | missing t => simp [runClients, henv, failText, jobPush]
    | failed m => simp [runClients, henv, failText, jobPush]
  | cons a init ih =>
    have ha := h a (by simp)
    have h' : ∀ x ∈ init ++ [lastc], (env x).isOk = false :=
      fun x hx => h x (by simp at hx ⊢; tauto)
    cases henv : env a with
    | ok t f => rw [henv] at ha; simp [AttemptResult.isOk] at ha
    | missing t => simpa [runClients, henv] using ih (some "File not found") h'
    | failed m => simpa [runClients, henv] using ih (some m) h'

theorem clients_nodup : CLIENTS_TO_TRY.Nodup := by decide

/-! ## Claim C1 -/

/-- Claim C1: for every submitted locator, the download worker attempts
the client identities in the fixed order `ios, android, web, mweb,
tv_embedded, mediaconnect`; at the first identity whose attempt succeeds
it records the result on the Job and returns immediately, no identity
later in the list is ever attempted, and any identity's failure
(recognized or not) moves the worker on to the next identity. -/
theorem C1_fallback_first_success (env : String → AttemptResult) (j : Job)
    (pre : List String) (c : String) (post : List String) (t f : String)
    (hsplit : CLIENTS_TO_TRY = pre ++ c :: post)
    (hpre : ∀ x ∈ pre, (env x).isOk = false)
    (hc : env c = AttemptResult.ok t f) :
    (download_task env j).attempted = pre ++ [c] ∧
    (download_task env j).job.status = Status.done ∧
    (download_task env j).job.title = t ∧
    (download_task env j).job.file_path = some f ∧
    ∀ x ∈ post, x ∉ (download_task env j).attempted := by
  have hok : (env c).isOk = true := by rw [hc]; rfl
  have hatt : (download_task env j).attempted = pre ++ [c] := by
    rw [download_task_attempted, hsplit, attemptedClients_first_ok env pre c post hpre hok]
  have hjob : (download_task env j).job =
      { jobPush .done (jobPush .downloading j) with title := t, file_path := some f } := by
    unfold download_task
    simp only []
    rw [hsplit, runClients_first_ok env pre c post none (jobPush .downloading j) t f hpre hc]
  have hnodup : (pre ++ c :: post).Nodup := hsplit ▸ clients_nodup
  refine ⟨hatt, by rw [hjob]; rfl, by rw [hjob], by rw [hjob], ?_⟩
  intro x hx
  rw [hatt]
  obtain ⟨hpreN, hcpostN, hdisj⟩ := List.nodup_append.mp hnodup
  intro hmem
  rcases List.mem_append.mp hmem with hin | hin
  · exact hdisj hin (by simp [hx])
  · have hxc : x = c := by simpa using hin
    have : c ∉ post := (List.nodup_cons.mp hcpostN).1
    exact this (hxc ▸ hx)

theorem C1_fallback_first_success_witness :
    (download_task envWebOk jInit).attempted = ["ios", "android", "web"] ∧
    (download_task envWebOk jInit).job.status = Status.done ∧
    (download_task envWebOk jInit).job.title = "T" := by
  have h := C1_fallback_first_success envWebOk jInit ["ios", "android"] "web"
    ["mweb", "tv_embedded", "mediaconnect"] "T" "/tmp/yt_x.mp3"
    (by decide) (by decide) (by decide)
  exact ⟨h.1, h.2.1, h.2.2.1⟩

/-! ## Claim C4 -/

/-- Claim C4: when every client identity's attempt fails, the Job ends
with `status = error` and its error message carries the failure text of
the last identity attempted (`mediaconnect`), not that of any earlier
identity; every identity was attempted. -/
theorem C4_all_fail_last_error (env : String → AttemptResult) (j : Job)
    (hall : ∀ x ∈ CLIENTS_TO_TRY, (env x).isOk = false) :
    (download_task env j).job.status = Status.error ∧
    (download_task env j).job.error =
      some ("Download failed. " ++ failText (env "mediaconnect")) ∧
    (download_task env j).attempted = CLIENTS_TO_TRY := by
  have hsplit : CLIENTS_TO_TRY =
      ["ios", "android", "web", "mweb", "tv_embedded"] ++ ["mediaconnect"] := rfl
  have hall' : ∀ x ∈ ["ios", "android", "web", "mweb", "tv_embedded"] ++ ["mediaconnect"],
      (env x).isOk = false := fun x hx => hall x (hsplit ▸ hx)
  have h := runClients_all_fail env ["ios", "android", "web", "mweb", "tv_embedded"]
    "mediaconnect" none (jobPush .downloading j) hall'
  refine ⟨?_, ?_, ?_⟩
  · unfold download_task
    simp only []
    rw [hsplit]
    exact h.1
  · unfold download_task
    simp only []
    rw [hsplit]
    exact h.2
  · rw [download_task_attempted, attemptedClients_all_fail env _ hall]

theorem C4_all_fail_last_error_witness :
    (download_task envAllFail jInit).job.status = Status.error ∧
    (download_task envAllFail jInit).job.error =
      some "Download failed. mediaconnect boom" ∧
    (download_task envAllFail jInit).attempted = CLIENTS_TO_TRY := by
  have h := C4_all_fail_last_error envAllFail jInit (by decide)
  refine ⟨h.1, ?_, h.2.2⟩
  have : ("Download failed. " ++ failText (envAllFail "mediaconnect")) =
      "Download failed. mediaconnect boom" := by decide
  rw [← this]
  exact h.2.1

/-! ## Claim C7 -/

/-- Claim C7 as stated is false: after `ios` reports success with no
output file locatable (`ArtifactMissing`), the worker does attempt the
next client identity (`android`), which here succeeds. -/
theorem C7_counterexample :
    envMissIos "ios" = AttemptResult.missing "T" ∧
    (download_task envMissIos jInit).attempted = ["ios", "android"] ∧
    (download_task envMissIos jInit).job.status = Status.done := by decide

/-- Claim C7 (amended): an attempt whose extraction reports success but
whose output file cannot be located is treated as that identity's
failure — it is not retried with the same identity (each identity is
attempted at most once), and the worker continues with the next client
identity in the list rather than stopping. -/
theorem C7_missing_counts_as_failure (env : String → AttemptResult) (j : Job)
    (t : String) (pre : List String) (c c' : String) (post : List String)
    (hsplit : CLIENTS_TO_TRY = pre ++ c :: c' :: post)
    (hpre : ∀ x ∈ pre, (env x).isOk = false)
    (hc : env c = AttemptResult.missing t) :
    (∃ rest, (download_task env j).attempted = (pre ++ [c, c']) ++ rest) ∧
    (download_task env j).attempted.count c = 1 := by
  have hcf : (env c).isOk = false := by rw [hc]; rfl
  have hatt : (download_task env j).attempted =
      pre ++ attemptedClients env (c :: c' :: post) := by
    rw [download_task_attempted, hsplit, attemptedClients_append_fail env pre _ hpre]
  have htail : ∃ r2, attemptedClients env (c :: c' :: post) = c :: c' :: r2 := by
    simp only [attemptedClients, hcf, Bool.false_eq_true, if_false]
    by_cases h2 : (env c').isOk = true
    · exact ⟨[], by simp [attemptedClients, h2]⟩
    · have h2' : (env c').isOk = false := by simpa using h2
      exact ⟨attemptedClients env post, by simp [attemptedClients, h2']⟩
  obtain ⟨r2, hr2⟩ := htail
  constructor
  · exact ⟨r2, by rw [hatt, hr2]; simp⟩
  · have hmem : c ∈ (download_task env j).attempted := by
      rw [hatt, hr2]; simp
    obtain ⟨tl, htl⟩ := attemptedClients_extends env CLIENTS_TO_TRY
    have hsub' : (attemptedClients env CLIENTS_TO_TRY).Sublist CLIENTS_TO_TRY := by
      conv_rhs => rw [← htl]
      exact List.sublist_append_left _ _
    have hsub : (download_task env j).attempted.Sublist CLIENTS_TO_TRY := by
      rw [download_task_attempted]
      exact hsub'
    have hnodup : (download_task env j).attempted.Nodup := clients_nodup.sublist hsub
    have hle := List.nodup_iff_count_le_one.mp hnodup c
    have hpos := List.count_pos_iff_mem.mpr hmem
    omega

theorem C7_missing_counts_as_failure_witness :
    (∃ rest, (download_task envMissIos jInit).attempted = ["ios", "android"] ++ rest) ∧
    (download_task envMissIos jInit).attempted.count "ios" = 1 := by
  have h := C7_missing_counts_as_failure envMissIos jInit "T" [] "ios" "android"
    ["web", "mweb", "tv_embedded", "mediaconnect"] rfl (by decide) (by decide)
  simpa using h

/-! ## Claim C8 -/

theorem runClients_effects_shape (env : String → AttemptResult)
    (cs : List String) (last : Option String) (j : Job) :
    ∀ e ∈ (runClients env cs last j).effects, e.isCleanup = false := by
  induction cs generalizing last with
  | nil => intro e he; simp [runClients] at he; simp [he, Effect.isCleanup]
  | cons c rest ih =>
    intro e he
    cases h : env c with
    | ok t f =>
      rw [runClients] at he
      simp only [h] at he
      rcases (by simpa using he : e = Effect.engineDownload c ∨
          e = Effect.registryWrite .done) with rfl | rfl <;> rfl
    | missing t =>
      rw [runClients] at he
      simp only [h] at he
      rcases (by simpa using he : e = Effect.engineDownload c ∨
          e ∈ (runClients env rest (some "File not found") j).effects) with rfl | hmem
      · rfl
      · exact ih (some "File not found") e hmem
    | failed m =>
      rw [runClients] at he
      simp only [h] at he
      rcases (by simpa using he : e = Effect.engineDownload c ∨
          e ∈ (runClients env rest (some m) j).effects) with rfl | hmem
      · rfl
      · exact ih (some m) e hmem

/-- Claim C8 as stated is false: a run that produces an artifact
(status `done`, `file_path` set) schedules no cleanup at all — the
worker's effect trace contains no deferred-deletion action. -/
theorem C8_counterexample :
    (download_task envIosOk jInit).job.status = Status.done ∧
    (download_task envIosOk jInit).job.file_path = some "/tmp/yt_abc.mp3" ∧
    (download_task envIosOk jInit).effects.filter Effect.isCleanup = [] := by decide

/-- Claim C8 (amended): no cleanup is ever scheduled — for every oracle
and every starting record, the download worker's effect trace contains
no `scheduleCleanup` action for any path or delay; produced artifact
files are never deleted by the application. -/
theorem C8_no_cleanup_scheduled (env : String → AttemptResult) (j : Job)
    (p : String) (d : Nat) :
    Effect.scheduleCleanup p d ∉ (download_task env j).effects ∧
    (download_task env j).effects.filter Effect.isCleanup = [] := by
  have hall : ∀ e ∈ (download_task env j).effects, e.isCleanup = false := by
    intro e he
    rw [download_task] at he
    simp only [List.mem_cons] at he
    rcases he with rfl | hmem
    · rfl
    · exact runClients_effects_shape env CLIENTS_TO_TRY none _ e hmem
  constructor
  · intro hmem
    have := hall _ hmem
    simp [Effect.isCleanup] at this
  · exact List.filter_eq_nil.mpr (fun e he => by simp [hall e he])

/-! ## Claim C9 -/

/-- Claim C9 as stated is false: `/enqueue` performs extraction-engine
work (the metadata-only title lookup of `fetch_title_with_ytdlp`) on the
calling path, before the Job record is created. -/
theorem C9_counterexample :
    SubmitEvent.engineMetadataCall "ios" ∈ (enqueue tenvIos "u" "192").2 ∧
    (enqueue tenvIos "u" "192").2 =
      [SubmitEvent.engineMetadataCall "ios", SubmitEvent.createRecord,
       SubmitEvent.spawnWorker] := by decide

theorem fetchTitleGo_extends (tenv : String → Option String) (cs : List String) :
    ∃ t, (fetchTitleGo tenv cs).2 ++ t = cs := by
  induction cs with
  | nil => exact ⟨[], rfl⟩
  | cons c rest ih =>
    cases h : tenv c with
    | some t => exact ⟨rest, by simp [fetchTitleGo, h]⟩
    | none =>
      obtain ⟨t, ht⟩ := ih
      exact ⟨t, by simp only [fetchTitleGo, h, List.cons_append]; rw [ht]⟩

/-- Claim C9 (amended): submission performs a synchronous metadata-only
title lookup through the extraction engine (client identities tried in
list order) on the calling path, then creates the `queued` Job record,
spawns the background worker and returns; nothing runs on the calling
path after the record is created except spawning the worker. -/
theorem C9_submit_does_title_lookup (tenv : String → Option String) (url q : String) :
    (∃ pre tail, pre ++ tail = CLIENTS_TO_TRY ∧
      (enqueue tenv url q).2 =
        pre.map SubmitEvent.engineMetadataCall ++
          [SubmitEvent.createRecord, SubmitEvent.spawnWorker]) ∧
    (enqueue tenv url q).1.status = Status.queued ∧
    (enqueue tenv url q).1.history = [Status.queued] := by
  obtain ⟨tail, htail⟩ := fetchTitleGo_extends tenv CLIENTS_TO_TRY
  exact ⟨⟨(fetchTitleGo tenv CLIENTS_TO_TRY).2, tail, htail, rfl⟩, rfl, rfl⟩

/-! ## Lemmas about the batch loops -/

theorem countInc_terminal (s : Status) (c f : Nat) (h : s = Status.done ∨ s = Status.error) :
    (countInc s c f).1 + (countInc s c f).2 = c + f + 1 := by
  rcases h with rfl | rfl <;> simp [countInc] <;> omega

theorem plainMemberAfter_status (env : String → String → AttemptResult)
    (quality url : String) (mj : BatchJob) :
    (plainMemberAfter env quality url mj).status =
      (download_task (env url) (mkRegistryJob url "Fetching..." quality)).job.status := rfl

theorem plainMemberAfter_terminal (env : String → String → AttemptResult)
    (quality url : String) (mj : BatchJob) :
    (plainMemberAfter env quality url mj).status = Status.done ∨
    (plainMemberAfter env quality url mj).status = Status.error :=
  download_status_terminal (env url) (mkRegistryJob url "Fetching..." quality)

theorem plainMemberAfter_history (env : String → String → AttemptResult)
    (quality url : String) (mj : BatchJob) :
    (plainMemberAfter env quality url mj).history =
      mj.history ++ [Status.downloading, (plainMemberAfter env quality url mj).status] := by
  show (memberAfterDownload _ (pushStatus .downloading mj)).history = _
  simp [memberAfterDownload, pushStatus, plainMemberAfter_status]

theorem batchLoopGo_jobs (env : String → String → AttemptResult) (quality : String)
    (jq : JobQueue) (i c f cur : Nat) (pairs : List (BatchJob × String)) :
    (batchLoopGo env quality jq i c f cur pairs).2.2.2.2 =
      pairs.map (fun p => plainMemberAfter env quality p.2 p.1) := by
  induction pairs generalizing jq i c f cur with
  | nil => rfl
  | cons p rest ih =>
    obtain ⟨mj, url⟩ := p
    simp only [batchLoopGo, List.map_cons]
    rw [ih]

theorem batchLoopGo_sum (env : String → String → AttemptResult) (quality : String)
    (jq : JobQueue) (i c f cur : Nat) (pairs : List (BatchJob × String)) :
    (batchLoopGo env quality jq i c f cur pairs).2.1 +
      (batchLoopGo env quality jq i c f cur pairs).2.2.1 = c + f + pairs.length := by
  induction pairs generalizing jq i c f cur with
  | nil => simp [batchLoopGo]
  | cons p rest ih =>
    obtain ⟨mj, url⟩ := p
    simp only [batchLoopGo]
    rw [ih]
    have := countInc_terminal
      (download_task (env url) (mkRegistryJob url "Fetching..." quality)).job.status c f
      (download_status_terminal _ _)
    simp [List.length_cons]
    omega

theorem batchLoopGo_counts (env : String → String → AttemptResult) (quality : String)
    (jq : JobQueue) (i c f cur : Nat) (pairs : List (BatchJob × String)) :
    (batchLoopGo env quality jq i c f cur pairs).2.1 =
      c + (pairs.map (fun p => plainMemberAfter env quality p.2 p.1)).countP
            (fun mj => decide (mj.status = Status.done)) ∧
    (batchLoopGo env quality jq i c f cur pairs).2.2.1 =
      f + (pairs.map (fun p => plainMemberAfter env quality p.2 p.1)).countP
            (fun mj => decide (mj.status = Status.error)) := by
  induction pairs generalizing jq i c f cur with
  | nil => simp [batchLoopGo]
  | cons p rest ih =>
    obtain ⟨mj, url⟩ := p
    simp only [batchLoopGo, List.map_cons, List.countP_cons]
    obtain ⟨ih1, ih2⟩ := ih (jqSet (jqSet jq mj.job_id (mkRegistryJob url "Fetching..." quality))
      mj.job_id (download_task (env url) (mkRegistryJob url "Fetching..." quality)).job)
      (i + 1)
      (countInc (download_task (env url) (mkRegistryJob url "Fetching..." quality)).job.status c f).1
      (countInc (download_task (env url) (mkRegistryJob url "Fetching..." quality)).job.status c f).2
      i
    rw [ih1, ih2]
    rcases download_status_terminal (env url) (mkRegistryJob url "Fetching..." quality) with hd | hd <;>
      simp [countInc, plainMemberAfter_status, hd] <;> omega

theorem find?_filter_ne (jq : JobQueue) (id x : String) (hx : x ≠ id) :
    List.find? (fun p => decide (p.1 = x)) (List.filter (fun p => !decide (p.1 = id)) jq) =
      List.find? (fun p => decide (p.1 = x)) jq := by
  induction jq with
  | nil => rfl
  | cons p rest ih =>
    by_cases hp : p.1 = id
    · have h2 : ¬(p.1 = x) := by rw [hp]; exact fun h => hx h.symm
      simp only [List.filter_cons, List.find?_cons]
      rw [if_neg (by simp [hp])]
      rw [show (decide (p.1 = x)) = false by simp [h2]]
      simpa using ih
    · simp only [List.filter_cons, List.find?_cons]
      rw [if_pos (by simp [hp])]
      by_cases hpx : p.1 = x
      · rw [List.find?_cons, show (decide (p.1 = x)) = true by simp [hpx]]
      · rw [List.find?_cons, show (decide (p.1 = x)) = false by simp [hpx]]
        simpa using ih

theorem jqGet_set (jq : JobQueue) (id x : String) (j : Job) :
    jqGet (jqSet jq id j) x = if x = id then some j else jqGet jq x := by
  by_cases hx : x = id
  · subst hx
    simp [jqGet, jqSet, List.find?_cons]
  · simp only [jqGet, jqSet, if_neg hx]
    rw [List.find?_cons_of_neg _ (by simpa using fun h : id = x => hx h.symm)]
    rw [find?_filter_ne jq id x hx]

theorem batchLoopGo_jqGet (env : String → String → AttemptResult) (quality : String)
    (jq : JobQueue) (i c f cur : Nat) (pairs : List (BatchJob × String)) (x : String)
    (hx : x ∉ pairs.map (fun p => p.1.job_id)) :
    jqGet (batchLoopGo env quality jq i c f cur pairs).1 x = jqGet jq x := by
  induction pairs generalizing jq i c f cur with
  | nil => rfl
  | cons p rest ih =>
    obtain ⟨mj, url⟩ := p
    simp only [List.map_cons, List.mem_cons, not_or] at hx
    simp only [batchLoopGo]
    rw [ih _ _ _ _ _ hx.2, jqGet_set, jqGet_set]
    simp [hx.1]

/-! ## Status walks (for claim C3) -/

/-- The observable status sequence `h` is a strictly forward walk in the
order the code implements (`codeRank`). -/
def WalkOK (h : List Status) : Prop := ForwardWalk codeRank (dedupConsec h)

instance (h : List Status) : Decidable (WalkOK h) :=
  inferInstanceAs (Decidable (ForwardWalk codeRank (dedupConsec h)))

theorem walkOK_qdf (f : Status) (h : f = Status.done ∨ f = Status.error) :
    WalkOK [Status.queued, Status.downloading, f] := by
  rcases h with rfl | rfl <;> decide

theorem walkOK_ddf (f : Status) (h : f = Status.done ∨ f = Status.error) :
    WalkOK [Status.downloading, Status.downloading, f] := by
  rcases h with rfl | rfl <;> decide

theorem walkOK_sqdf (f : Status) (h : f = Status.done ∨ f = Status.error) :
    WalkOK [Status.searching, Status.queued, Status.downloading, f] := by
  rcases h with rfl | rfl <;> decide

theorem downloaded_registry_walk (env : String → AttemptResult)
    (url title quality : String) :
    WalkOK (download_task env (mkRegistryJob url title quality)).job.history := by
  obtain ⟨f, h1, h2, h3⟩ := download_task_job env (mkRegistryJob url title quality)
  rw [h3]
  exact walkOK_ddf f h2

/-- Every record in the registry has a status history that is a forward
walk (in the code's order). -/
def RegWalk (jq : JobQueue) : Prop := ∀ x j, jqGet jq x = some j → WalkOK j.history

theorem regWalk_nil : RegWalk [] := by intro x j h; simp [jqGet] at h

theorem regWalk_set (jq : JobQueue) (id : String) (j : Job)
    (h : RegWalk jq) (hj : WalkOK j.history) : RegWalk (jqSet jq id j) := by
  intro x j' hx
  rw [jqGet_set] at hx
  by_cases hxi : x = id
  · rw [if_pos hxi] at hx
    cases hx
    exact hj
  · rw [if_neg hxi] at hx
    exact h x j' hx

theorem walkOK_mkRegistry (url title quality : String) :
    WalkOK (mkRegistryJob url title quality).history := by
  show WalkOK [Status.downloading]
  decide

theorem batchLoopGo_regWalk (env : String → String → AttemptResult) (quality : String)
    (jq : JobQueue) (i c f cur : Nat) (pairs : List (BatchJob × String))
    (h : RegWalk jq) :
    RegWalk (batchLoopGo env quality jq i c f cur pairs).1 := by
  induction pairs generalizing jq i c f cur with
  | nil => exact h
  | cons p rest ih =>
    obtain ⟨mj, url⟩ := p
    simp only [batchLoopGo]
    exact ih _ _ _ _ _
      (regWalk_set _ _ _
        (regWalk_set _ _ _ h (walkOK_mkRegistry url "Fetching..." quality))
        (downloaded_registry_walk (env url) url "Fetching..." quality))

/-! ## Lemmas about the resolver phases -/

theorem phase1Go_jobs (senv : String → Option String) (i f cur : Nat)
    (jobs : List BatchJob) :
    (phase1Go senv i f cur jobs).2.2 = jobs.map (phase1Member senv) := by
  induction jobs generalizing i f cur with
  | nil => rfl
  | cons mj rest ih =>
    cases h : senv (mj.search_query.getD mj.title) with
    | some u => simp only [phase1Go, phase1Member, h, List.map_cons]; rw [ih]
    | none => simp only [phase1Go, phase1Member, h, List.map_cons]; rw [ih]

theorem phase1Go_failed (senv : String → Option String) (i f cur : Nat)
    (jobs : List BatchJob) :
    (phase1Go senv i f cur jobs).1 =
      f + jobs.countP (fun mj => (senv (mj.search_query.getD mj.title)).isNone) := by
  induction jobs generalizing i f cur with
  | nil => simp [phase1Go]
  | cons mj rest ih =>
    cases h : senv (mj.search_query.getD mj.title) with
    | some u =>
      simp only [phase1Go, h, List.countP_cons]
      rw [ih]
      simp [h]
    | none =>
      simp only [phase1Go, h, List.countP_cons]
      rw [ih]
      simp [h]
      omega

theorem phase2Go_jobs (env : String → String → AttemptResult) (quality : String)
    (jq : JobQueue) (i c f cur : Nat) (jobs : List BatchJob) :
    (phase2Go env quality jq i c f cur jobs).2.2.2.2 =
      jobs.map (phase2Member env quality) := by
  induction jobs generalizing jq i c f cur with
  | nil => rfl
  | cons mj rest ih =>
    by_cases h : phase2Processes mj = true
    · simp only [phase2Go, h, if_true, List.map_cons]
      rw [ih]
    · simp only [phase2Go, Bool.not_eq_true] at h ⊢
      simp only [h, Bool.false_eq_true, if_false, List.map_cons]
      rw [ih]
      rw [phase2Member, h]
      simp

theorem phase2DownJob_terminal (env : String → String → AttemptResult)
    (quality : String) (mj : BatchJob) :
    (phase2DownJob env quality mj).status = Status.done ∨
    (phase2DownJob env quality mj).status = Status.error :=
  download_status_terminal _ _

theorem phase2Go_sum (env : String → String → AttemptResult) (quality : String)
    (jq : JobQueue) (i c f cur : Nat) (jobs : List BatchJob) :
    (phase2Go env quality jq i c f cur jobs).2.1 +
      (phase2Go env quality jq i c f cur jobs).2.2.1 =
      c + f + jobs.countP phase2Processes := by
  induction jobs generalizing jq i c f cur with
  | nil => simp [phase2Go]
  | cons mj rest ih =>
    by_cases h : phase2Processes mj = true
    · simp only [phase2Go, h, if_true, List.countP_cons, h]
      rw [ih]
      have := countInc_terminal
        ((download_task (env (mj.url.getD "")) (mkRegistryJob (mj.url.getD "") mj.title quality)).job.status)
        c f (download_status_terminal _ _)
      omega
    · simp only [Bool.not_eq_true] at h
      simp only [phase2Go, h, Bool.false_eq_true, if_false, List.countP_cons, h]
      rw [ih]
      simp

theorem phase2Go_regWalk (env : String → String → AttemptResult) (quality : String)
    (jq : JobQueue) (i c f cur : Nat) (jobs : List BatchJob)
    (h : RegWalk jq) :
    RegWalk (phase2Go env quality jq i c f cur jobs).1 := by
  induction jobs generalizing jq i c f cur with
  | nil => exact h
  | cons mj rest ih =>
    by_cases hp : phase2Processes mj = true
    · simp only [phase2Go, hp, if_true]
      exact ih _ _ _ _ _
        (regWalk_set _ _ _
          (regWalk_set _ _ _ h (walkOK_mkRegistry (mj.url.getD "") mj.title quality))
          (downloaded_registry_walk _ _ _ _))
    · simp only [Bool.not_eq_true] at hp
      simp only [phase2Go, hp, Bool.false_eq_true, if_false]
      exact ih _ _ _ _ _ h

theorem phase1Member_processes (senv : String → Option String) (mj : BatchJob) :
    phase2Processes (phase1Member senv mj) =
      (senv (mj.search_query.getD mj.title)).isSome := by
  cases h : senv (mj.search_query.getD mj.title) with
  | some u => simp [phase1Member, h, phase2Processes, pushStatus]
  | none => simp [phase1Member, h, phase2Processes, pushStatus]

theorem batch_download_task_sum (env : String → String → AttemptResult)
    (q : String) (jq : JobQueue) (b : Batch) (urls : List String) :
    (batch_download_task env q jq b urls).2.status = BatchStatus.done ∧
    (batch_download_task env q jq b urls).2.completed +
      (batch_download_task env q jq b urls).2.failed =
      b.completed + b.failed + (b.jobs.zip urls).length ∧
    (batch_download_task env q jq b urls).2.total = b.total := by
  refine ⟨rfl, ?_, rfl⟩
  exact batchLoopGo_sum env q jq 0 b.completed b.failed b.current_index (b.jobs.zip urls)

theorem spotify_batch_task_sum (senv : String → Option String)
    (env : String → String → AttemptResult) (q : String) (jq : JobQueue) (b : Batch) :
    (spotify_batch_task senv env q jq b).2.status = BatchStatus.done ∧
    (spotify_batch_task senv env q jq b).2.completed +
      (spotify_batch_task senv env q jq b).2.failed =
      b.completed +
        (b.failed + b.jobs.countP (fun mj => (senv (mj.search_query.getD mj.title)).isNone)) +
        (b.jobs.map (phase1Member senv)).countP phase2Processes := by
  refine ⟨rfl, ?_⟩
  show (phase2Go env q jq 0 b.completed (phase1Go senv 0 b.failed b.current_index b.jobs).1
      (phase1Go senv 0 b.failed b.current_index b.jobs).2.1
      (phase1Go senv 0 b.failed b.current_index b.jobs).2.2).2.1 +
    (phase2Go env q jq 0 b.completed (phase1Go senv 0 b.failed b.current_index b.jobs).1
      (phase1Go senv 0 b.failed b.current_index b.jobs).2.1
      (phase1Go senv 0 b.failed b.current_index b.jobs).2.2).2.2.1 = _
  rw [phase1Go_failed, phase1Go_jobs]
  exact phase2Go_sum env q jq 0 b.completed _ _ _

theorem countP_some_none (senv : String → Option String) (jobs : List BatchJob) :
    jobs.countP (fun mj => (senv (mj.search_query.getD mj.title)).isSome) +
      jobs.countP (fun mj => (senv (mj.search_query.getD mj.title)).isNone) =
      jobs.length := by
  induction jobs with
  | nil => rfl
  | cons mj rest ih =>
    cases h : senv (mj.search_query.getD mj.title) <;>
      simp [List.countP_cons, h] <;> omega

/-! ## Claim C2 -/

/-- Claim C2: for every Batch — plain or cross-platform — whenever the
batch record has `status = done` (which its background task sets exactly
once, after the last member), `completed + failed = total`. -/
theorem C2_done_counts (env : String → String → AttemptResult)
    (senv : String → Option String) (q q2 : String) (jq jq2 : JobQueue)
    (urls ids : List String) (tracks : List Track) (sids : List String)
    (hp : urls.length ≤ ids.length)
    (hs : (tracks.take 50).length ≤ sids.length) :
    ((batch_download_task env q jq (batch_enqueue urls ids q) urls).2.status =
        BatchStatus.done ∧
      (batch_download_task env q jq (batch_enqueue urls ids q) urls).2.completed +
        (batch_download_task env q jq (batch_enqueue urls ids q) urls).2.failed =
        (batch_download_task env q jq (batch_enqueue urls ids q) urls).2.total) ∧
    ((spotify_batch_task senv env q2 jq2 (spotify_download tracks sids q2)).2.status =
        BatchStatus.done ∧
      (spotify_batch_task senv env q2 jq2 (spotify_download tracks sids q2)).2.completed +
        (spotify_batch_task senv env q2 jq2 (spotify_download tracks sids q2)).2.failed =
        (spotify_batch_task senv env q2 jq2 (spotify_download tracks sids q2)).2.total) := by
  constructor
  · obtain ⟨hstat, hsum, htot⟩ :=
      batch_download_task_sum env q jq (batch_enqueue urls ids q) urls
    refine ⟨hstat, ?_⟩
    rw [hsum, htot]
    show 0 + 0 + (((ids.zip urls).map (fun p => mkBatchJob p.1 p.2)).zip urls).length =
      urls.length
    simp [List.length_zip]
    omega
  · obtain ⟨hstat, hsum⟩ :=
      spotify_batch_task_sum senv env q2 jq2 (spotify_download tracks sids q2)
    refine ⟨hstat, ?_⟩
    rw [hsum]
    have hpp : ((spotify_download tracks sids q2).jobs.map (phase1Member senv)).countP
        phase2Processes =
        (spotify_download tracks sids q2).jobs.countP
          (fun mj => (senv (mj.search_query.getD mj.title)).isSome) := by
      rw [List.countP_map]
      exact List.countP_congr (fun mj _ => by
        show phase2Processes (phase1Member senv mj) = true ↔ _
        rw [phase1Member_processes senv mj])
    rw [hpp]
    have hsome := countP_some_none senv (spotify_download tracks sids q2).jobs
    have hc0 : (spotify_download tracks sids q2).completed = 0 := rfl
    have hf0 : (spotify_download tracks sids q2).failed = 0 := rfl
    have hbt : (spotify_batch_task senv env q2 jq2 (spotify_download tracks sids q2)).2.total =
        (tracks.take 50).length := rfl
    have hlen : (spotify_download tracks sids q2).jobs.length = (tracks.take 50).length := by
      show ((sids.zip (tracks.take 50)).map (fun p => mkSpotifyJob p.1 p.2)).length = _
      simp only [List.length_map, List.length_zip, List.length_take] at hs ⊢
      omega
    omega

theorem C2_done_counts_witness :
    (batch_download_task envSong "192" [] (batch_enqueue ["u1"] ["a"] "192") ["u1"]).2.completed +
      (batch_download_task envSong "192" [] (batch_enqueue ["u1"] ["a"] "192") ["u1"]).2.failed =
      (batch_download_task envSong "192" [] (batch_enqueue ["u1"] ["a"] "192") ["u1"]).2.total ∧
    (spotify_batch_task senvHit envSong "192" [] (spotify_download [trkTA] ["j1"] "192")).2.completed +
      (spotify_batch_task senvHit envSong "192" [] (spotify_download [trkTA] ["j1"] "192")).2.failed =
      (spotify_batch_task senvHit envSong "192" [] (spotify_download [trkTA] ["j1"] "192")).2.total := by
  have h := C2_done_counts envSong senvHit "192" "192" [] [] ["u1"] ["a"] [trkTA] ["j1"]
    (by decide) (by decide)
  exact ⟨h.1.2, h.2.2⟩

/-! ## Claim C5 -/

/-- Claim C5: one member's failure never aborts a batch: every member —
also every member after a failed one — is processed to a terminal state
(`done` or `error`), exactly one of the two counters is incremented per
member (`completed` counts exactly the `done` members and `failed`
exactly the `error` members), and the batch still reaches
`status = done` with `completed + failed = total`. -/
theorem C5_partial_failure (env : String → String → AttemptResult) (q : String)
    (jq : JobQueue) (urls ids : List String)
    (hlen : urls.length ≤ ids.length) :
    (batch_download_task env q jq (batch_enqueue urls ids q) urls).2.status =
      BatchStatus.done ∧
    (batch_download_task env q jq (batch_enqueue urls ids q) urls).2.jobs.length =
      urls.length ∧
    (∀ mj ∈ (batch_download_task env q jq (batch_enqueue urls ids q) urls).2.jobs,
      mj.status = Status.done ∨ mj.status = Status.error) ∧
    (batch_download_task env q jq (batch_enqueue urls ids q) urls).2.completed =
      (batch_download_task env q jq (batch_enqueue urls ids q) urls).2.jobs.countP
        (fun mj => decide (mj.status = Status.done)) ∧
    (batch_download_task env q jq (batch_enqueue urls ids q) urls).2.failed =
      (batch_download_task env q jq (batch_enqueue urls ids q) urls).2.jobs.countP
        (fun mj => decide (mj.status = Status.error)) ∧
    (batch_download_task env q jq (batch_enqueue urls ids q) urls).2.completed +
      (batch_download_task env q jq (batch_enqueue urls ids q) urls).2.failed =
      (batch_download_task env q jq (batch_enqueue urls ids q) urls).2.total := by
  have hjobs : (batch_download_task env q jq (batch_enqueue urls ids q) urls).2.jobs =
      ((batch_enqueue urls ids q).jobs.zip urls).map
        (fun p => plainMemberAfter env q p.2 p.1) :=
    batchLoopGo_jobs env q jq 0 _ _ _ _
  have hziplen : (((ids.zip urls).map (fun p => mkBatchJob p.1 p.2)).zip urls).length =
      urls.length := by
    simp [List.length_zip]
    omega
  refine ⟨rfl, ?_, ?_, ?_, ?_, ?_⟩
  · rw [hjobs, List.length_map]
    exact hziplen
  · intro mj hmj
    rw [hjobs] at hmj
    obtain ⟨p, -, rfl⟩ := List.mem_map.mp hmj
    exact plainMemberAfter_terminal env q p.2 p.1
  · have hc := (batchLoopGo_counts env q jq 0 (batch_enqueue urls ids q).completed
      (batch_enqueue urls ids q).failed (batch_enqueue urls ids q).current_index
      ((batch_enqueue urls ids q).jobs.zip urls)).1
    rw [show (batch_enqueue urls ids q).completed = 0 from rfl, Nat.zero_add] at hc
    rw [hjobs]
    exact hc
  · have hf := (batchLoopGo_counts env q jq 0 (batch_enqueue urls ids q).completed
      (batch_enqueue urls ids q).failed (batch_enqueue urls ids q).current_index
      ((batch_enqueue urls ids q).jobs.zip urls)).2
    rw [show (batch_enqueue urls ids q).failed = 0 from rfl, Nat.zero_add] at hf
    rw [hjobs]
    exact hf
  · obtain ⟨-, hsum, htot⟩ :=
      batch_download_task_sum env q jq (batch_enqueue urls ids q) urls
    rw [hsum, htot]
    show 0 + 0 + (((ids.zip urls).map (fun p => mkBatchJob p.1 p.2)).zip urls).length =
      urls.length
    rw [hziplen]
    omega

theorem C5_partial_failure_witness :
    (batch_download_task envU2Fails "192" []
        (batch_enqueue ["u1", "u2", "u3"] ["a", "b", "c"] "192")
        ["u1", "u2", "u3"]).2.status = BatchStatus.done ∧
    (∀ mj ∈ (batch_download_task envU2Fails "192" []
        (batch_enqueue ["u1", "u2", "u3"] ["a", "b", "c"] "192")
        ["u1", "u2", "u3"]).2.jobs,
      mj.status = Status.done ∨ mj.status = Status.error) ∧
    (batch_download_task envU2Fails "192" []
        (batch_enqueue ["u1", "u2", "u3"] ["a", "b", "c"] "192")
        ["u1", "u2", "u3"]).2.completed +
      (batch_download_task envU2Fails "192" []
        (batch_enqueue ["u1", "u2", "u3"] ["a", "b", "c"] "192")
        ["u1", "u2", "u3"]).2.failed =
      (batch_download_task envU2Fails "192" []
        (batch_enqueue ["u1", "u2", "u3"] ["a", "b", "c"] "192")
        ["u1", "u2", "u3"]).2.total := by
  have h := C5_partial_failure envU2Fails "192" [] ["u1", "u2", "u3"] ["a", "b", "c"]
    (by decide)
  exact ⟨h.1, h.2.2.1, h.2.2.2.2.2⟩

/-! ## Claim C10 -/

theorem getElem?_zip_pair {α β : Type} (as : List α) (bs : List β) (i : Nat)
    (a : α) (b : β) (ha : as[i]? = some a) (hb : bs[i]? = some b) :
    (as.zip bs)[i]? = some (a, b) := by
  induction as generalizing bs i with
  | nil => simp at ha
  | cons x as ih =>
    cases bs with
    | nil => simp at hb
    | cons y bs =>
      cases i with
      | zero =>
        simp only [List.getElem?_cons_zero, Option.some_inj] at ha hb
        simp [List.zip_cons_cons, ha, hb]
      | succ n =>
        simp only [List.getElem?_cons_succ] at ha hb
        simpa [List.zip_cons_cons] using ih bs n ha hb

/-- Implicit claim C10: `/batch_enqueue` creates the member job ids
only inside the batch record, never in `job_queue`; until the batch
worker begins downloading member `i` (i.e. in the state after any
`n ≤ i` completed loop iterations), `/status/<member-id>` returns the
404 "Job not found" answer while `/batch_status` still reports that
member as `queued` with the placeholder title. -/
theorem C10_member_not_registered (env : String → String → AttemptResult)
    (q : String) (jq0 : JobQueue) (urls ids : List String) (n i : Nat) (jid : String)
    (hlen : ids.length = urls.length)
    (hnodup : ids.Nodup)
    (hfresh : jqGet jq0 jid = none)
    (hn : n ≤ i) (hi : i < urls.length)
    (hid : ids[i]? = some jid) :
    get_status (batch_mid env q jq0 (batch_enqueue urls ids q) urls n).1 jid = none ∧
    ∃ mj, (batch_mid env q jq0 (batch_enqueue urls ids q) urls n).2.jobs[i]? = some mj ∧
      mj.job_id = jid ∧ mj.status = Status.queued ∧ mj.title = "Waiting..." ∧
      (batch_status_jobs (batch_mid env q jq0 (batch_enqueue urls ids q) urls n).2)[i]? =
        some (jid, mj.url, Status.queued, "Waiting...", none) := by
  have hjlen : (batch_enqueue urls ids q).jobs.length = urls.length := by
    show ((ids.zip urls).map (fun p => mkBatchJob p.1 p.2)).length = urls.length
    simp only [List.length_map, List.length_zip]
    omega
  have hids : (batch_enqueue urls ids q).jobs.map (fun mj => mj.job_id) = ids := by
    show ((ids.zip urls).map (fun p => mkBatchJob p.1 p.2)).map (fun mj => mj.job_id) = ids
    rw [List.map_map]
    show (ids.zip urls).map (fun p => p.1) = ids
    exact List.map_fst_zip ids urls (le_of_eq hlen)
  have hfst : ((batch_enqueue urls ids q).jobs.zip urls).map (fun p => p.1) =
      (batch_enqueue urls ids q).jobs :=
    List.map_fst_zip _ _ (le_of_eq hjlen)
  have hpids : ((batch_enqueue urls ids q).jobs.zip urls).map (fun p => p.1.job_id) = ids := by
    have h1 : ((batch_enqueue urls ids q).jobs.zip urls).map (fun p => p.1.job_id) =
        (((batch_enqueue urls ids q).jobs.zip urls).map (fun p => p.1)).map
          (fun mj => mj.job_id) := by
      rw [List.map_map]
      rfl
    rw [h1, hfst, hids]
  have hplen : ((batch_enqueue urls ids q).jobs.zip urls).length = urls.length := by
    simp only [List.length_zip, hjlen]
    omega
  have htake : (((batch_enqueue urls ids q).jobs.zip urls).take n).map
      (fun p => p.1.job_id) = ids.take n := by
    rw [List.map_take, hpids]
  have hdropmem : jid ∈ ids.drop n := by
    have hd : (ids.drop n)[i - n]? = some jid := by
      rw [List.getElem?_drop]
      have he : n + (i - n) = i := by omega
      rw [he, hid]
    exact List.getElem?_mem hd
  have hnotin : jid ∉ ids.take n := by
    have hnd := hnodup
    rw [← List.take_append_drop n ids] at hnd
    obtain ⟨-, -, hdisj⟩ := List.nodup_append.mp hnd
    exact fun hin => hdisj hin hdropmem
  constructor
  · have hreg : jqGet (batch_mid env q jq0 (batch_enqueue urls ids q) urls n).1 jid =
        jqGet jq0 jid := by
      refine batchLoopGo_jqGet env q jq0 0 _ _ _ _ jid ?_
      rw [htake]
      exact hnotin
    simp [get_status, hreg, hfresh]
  · obtain ⟨u, hu⟩ : ∃ u, urls[i]? = some u := ⟨urls[i], List.getElem?_eq_getElem hi⟩
    have hzip : (ids.zip urls)[i]? = some (jid, u) := getElem?_zip_pair ids urls i jid u hid hu
    have hbj : (batch_enqueue urls ids q).jobs[i]? = some (mkBatchJob jid u) := by
      show (((ids.zip urls)).map (fun p => mkBatchJob p.1 p.2))[i]? = _
      rw [List.getElem?_map, hzip]
      rfl
    have hpair : (((batch_enqueue urls ids q).jobs.zip urls))[i]? =
        some (mkBatchJob jid u, u) :=
      getElem?_zip_pair _ urls i (mkBatchJob jid u) u hbj hu
    have hproclen :
        ((batchLoopGo env q jq0 0 (batch_enqueue urls ids q).completed
          (batch_enqueue urls ids q).failed (batch_enqueue urls ids q).current_index
          (((batch_enqueue urls ids q).jobs.zip urls).take n)).2.2.2.2).length = n := by
      rw [batchLoopGo_jobs, List.length_map, List.length_take]
      omega
    have hmidjobs : (batch_mid env q jq0 (batch_enqueue urls ids q) urls n).2.jobs[i]? =
        some (mkBatchJob jid u) := by
      show ((batchLoopGo env q jq0 0 (batch_enqueue urls ids q).completed
          (batch_enqueue urls ids q).failed (batch_enqueue urls ids q).current_index
          (((batch_enqueue urls ids q).jobs.zip urls).take n)).2.2.2.2 ++
        (((batch_enqueue urls ids q).jobs.zip urls).drop n).map Prod.fst)[i]? = _
      rw [List.getElem?_append_right (by rw [hproclen]; exact hn), hproclen,
        List.getElem?_map, List.getElem?_drop]
      have he : n + (i - n) = i := by omega
      rw [he, hpair]
      rfl
    refine ⟨mkBatchJob jid u, hmidjobs, rfl, rfl, rfl, ?_⟩
    show ((batch_mid env q jq0 (batch_enqueue urls ids q) urls n).2.jobs.map
      (fun j => (j.job_id, j.url, j.status, j.title, j.error)))[i]? = _
    rw [List.getElem?_map, hmidjobs]
    rfl

theorem C10_member_not_registered_witness :
    get_status (batch_mid envSong "192" []
      (batch_enqueue ["u1", "u2"] ["a", "b"] "192") ["u1", "u2"] 1).1 "b" = none ∧
    ∃ mj, (batch_mid envSong "192" []
        (batch_enqueue ["u1", "u2"] ["a", "b"] "192") ["u1", "u2"] 1).2.jobs[1]? = some mj ∧
      mj.job_id = "b" ∧ mj.status = Status.queued ∧ mj.title = "Waiting..." ∧
      (batch_status_jobs (batch_mid envSong "192" []
        (batch_enqueue ["u1", "u2"] ["a", "b"] "192") ["u1", "u2"] 1).2)[1]? =
        some ("b", mj.url, Status.queued, "Waiting...", none) :=
  C10_member_not_registered envSong "192" [] ["u1", "u2"] ["a", "b"] 1 1 "b"
    rfl (by decide) rfl (by decide) (by decide) rfl

/-! ## Claim C3 -/

theorem phase1Member_found (senv : String → Option String) (mj : BatchJob) (u : String)
    (h : senv (mj.search_query.getD mj.title) = some u) :
    phase1Member senv mj = pushStatus .queued { mj with url := some u } := by
  simp [phase1Member, h]

theorem phase1Member_nomatch (senv : String → Option String) (mj : BatchJob)
    (h : senv (mj.search_query.getD mj.title) = none) :
    phase1Member senv mj =
      { pushStatus .error mj with error := some "No YouTube match found" } := by
  simp [phase1Member, h]

theorem phase2Member_skip (env : String → String → AttemptResult) (quality : String)
    (mj : BatchJob) (h : phase2Processes mj = false) :
    phase2Member env quality mj = mj := by
  simp [phase2Member, h]

theorem phase2Member_proc (env : String → String → AttemptResult) (quality : String)
    (mj : BatchJob) (h : phase2Processes mj = true) :
    phase2Member env quality mj =
      memberAfterDownload (phase2DownJob env quality mj) (pushStatus .downloading mj) := by
  simp [phase2Member, h]

theorem walkOK_se : WalkOK [Status.searching, Status.error] := by decide

theorem batch_enqueue_member_history (urls ids : List String) (q : String) :
    ∀ mj ∈ (batch_enqueue urls ids q).jobs, mj.history = [Status.queued] := by
  intro mj hmj
  obtain ⟨p, -, rfl⟩ := List.mem_map.mp hmj
  rfl

theorem spotify_download_member_shape (tracks : List Track) (sids : List String)
    (q : String) :
    ∀ mj ∈ (spotify_download tracks sids q).jobs,
      mj.history = [Status.searching] ∧ mj.status = Status.searching := by
  intro mj hmj
  obtain ⟨p, -, rfl⟩ := List.mem_map.mp hmj
  exact ⟨rfl, rfl⟩

theorem plain_member_walk (env : String → String → AttemptResult)
    (quality url : String) (mj : BatchJob) (h : mj.history = [Status.queued]) :
    WalkOK (plainMemberAfter env quality url mj).history := by
  rw [plainMemberAfter_history, h]
  exact walkOK_qdf _ (plainMemberAfter_terminal env quality url mj)

theorem spotify_member_walk (senv : String → Option String)
    (env : String → String → AttemptResult) (quality : String) (mj0 : BatchJob)
    (hh : mj0.history = [Status.searching]) :
    WalkOK (phase2Member env quality (phase1Member senv mj0)).history := by
  cases hsv : senv (mj0.search_query.getD mj0.title) with
  | none =>
    rw [phase1Member_nomatch senv mj0 hsv]
    rw [phase2Member_skip _ _ _ (by simp [phase2Processes, pushStatus])]
    show WalkOK ((pushStatus Status.error mj0).history)
    rw [show (pushStatus Status.error mj0).history = mj0.history ++ [Status.error] from rfl, hh]
    exact walkOK_se
  | some u =>
    rw [phase1Member_found senv mj0 u hsv]
    rw [phase2Member_proc _ _ _ (by simp [phase2Processes, pushStatus])]
    show WalkOK (((pushStatus .downloading (pushStatus .queued { mj0 with url := some u })).history)
      ++ [(phase2DownJob env quality (pushStatus .queued { mj0 with url := some u })).status])
    rw [show (pushStatus .downloading (pushStatus .queued { mj0 with url := some u })).history =
      mj0.history ++ [Status.queued, Status.downloading] from by simp [pushStatus], hh]
    exact walkOK_sqdf _ (phase2DownJob_terminal env quality _)

/-- Claim C3 as stated is false: a successfully resolved cross-platform
member's observed status sequence is
`searching → queued → downloading → done`, which enters `queued` AFTER
`searching` — a move to an earlier state of the spec's machine
`queued → [searching] → downloading → done | error`, so the sequence is
not a strictly forward walk of that machine. -/
theorem C3_counterexample :
    ((spotify_batch_task senvHit envSong "192" []
        (spotify_download [trkTA] ["j1"] "192")).2.jobs.map (fun mj => mj.history)) =
      [[Status.searching, Status.queued, Status.downloading, Status.done]] ∧
    ¬ ForwardWalk specRank
        (dedupConsec [Status.searching, Status.queued, Status.downloading, Status.done]) := by
  decide

/-- Claim C3 (amended): every Job's observed status sequence is a
strictly forward walk with no status revisited and no transition out of
`done` or `error`, but through the order the code implements —
`searching → queued → downloading → done | error`, in which a
cross-platform member enters `searching` BEFORE `queued`.  This holds
for single jobs, plain-batch members and registry records, and
cross-platform members and registry records (registries started empty). -/
theorem C3_forward_walk (tenv : String → Option String)
    (env1 : String → AttemptResult) (env : String → String → AttemptResult)
    (senv : String → Option String) (url q : String)
    (urls ids : List String) (tracks : List Track) (sids : List String) :
    WalkOK (single_job_final tenv env1 url q).history ∧
    (∀ mj ∈ (batch_download_task env q [] (batch_enqueue urls ids q) urls).2.jobs,
      WalkOK mj.history) ∧
    (∀ x j, jqGet (batch_download_task env q [] (batch_enqueue urls ids q) urls).1 x =
        some j → WalkOK j.history) ∧
    (∀ mj ∈ (spotify_batch_task senv env q [] (spotify_download tracks sids q)).2.jobs,
      WalkOK mj.history) ∧
    (∀ x j, jqGet (spotify_batch_task senv env q [] (spotify_download tracks sids q)).1 x =
        some j → WalkOK j.history) := by
  refine ⟨?_, ?_, ?_, ?_, ?_⟩
  · obtain ⟨f, hst, hterm, hh⟩ := download_task_job env1 (enqueue tenv url q).1
    show WalkOK (download_task env1 (enqueue tenv url q).1).job.history
    rw [hh, show (enqueue tenv url q).1.history = [Status.queued] from rfl]
    exact walkOK_qdf f hterm
  · intro mj hmj
    have hjobs : (batch_download_task env q [] (batch_enqueue urls ids q) urls).2.jobs =
        ((batch_enqueue urls ids q).jobs.zip urls).map
          (fun p => plainMemberAfter env q p.2 p.1) :=
      batchLoopGo_jobs env q [] 0 _ _ _ _
    rw [hjobs] at hmj
    obtain ⟨p, hp, rfl⟩ := List.mem_map.mp hmj
    obtain ⟨mj0, u⟩ := p
    have hmem := (List.mem_zip hp).1
    exact plain_member_walk env q u mj0 (batch_enqueue_member_history urls ids q mj0 hmem)
  · intro x j hx
    exact batchLoopGo_regWalk env q [] 0 _ _ _ _ regWalk_nil x j hx
  · intro mj hmj
    have hjobs : (spotify_batch_task senv env q [] (spotify_download tracks sids q)).2.jobs =
        ((spotify_download tracks sids q).jobs.map (phase1Member senv)).map
          (phase2Member env q) := by
      show (phase2Go env q [] 0 _
        (phase1Go senv 0 _ _ (spotify_download tracks sids q).jobs).1
        (phase1Go senv 0 _ _ (spotify_download tracks sids q).jobs).2.1
        (phase1Go senv 0 _ _ (spotify_download tracks sids q).jobs).2.2).2.2.2.2 = _
      rw [phase2Go_jobs, phase1Go_jobs]
    rw [hjobs, List.map_map] at hmj
    obtain ⟨mj0, hmem, rfl⟩ := List.mem_map.mp hmj
    exact spotify_member_walk senv env q mj0
      (spotify_download_member_shape tracks sids q mj0 hmem).1
  · intro x j hx
    exact phase2Go_regWalk env q [] 0 _ _ _ _ regWalk_nil x j hx

/-! ## Claim C6 -/

/-- Claim C6 as stated is false: the no-match member is marked with the
error string `"No YouTube match found"`, not `"no match found"`. -/
theorem C6_counterexample :
    ((spotify_after_phase1 senvNone (spotify_download [trkTA] ["j1"] "192")).jobs.map
        (fun mj => mj.error)) = [some "No YouTube match found"] ∧
    "No YouTube match found" ≠ "no match found" := by
  decide

/-- Claim C6 (amended): a cross-platform descriptor whose search yields
no result has its member marked `status = error` with
`error = "No YouTube match found"` already in phase 1, is counted in the
`failed` counter during phase 1 (before any download starts), is left
untouched by phase 2, and its status history `[searching, error]` never
contains `downloading`. -/
theorem C6_no_match (senv : String → Option String)
    (env : String → String → AttemptResult) (q : String) (jq : JobQueue)
    (tracks : List Track) (sids : List String) (i : Nat) (mj0 : BatchJob)
    (hm : (spotify_download tracks sids q).jobs[i]? = some mj0)
    (hs : senv (mj0.search_query.getD mj0.title) = none) :
    ∃ mj,
      (spotify_after_phase1 senv (spotify_download tracks sids q)).jobs[i]? = some mj ∧
      mj.status = Status.error ∧
      mj.error = some "No YouTube match found" ∧
      mj.history = [Status.searching, Status.error] ∧
      Status.downloading ∉ mj.history ∧
      (spotify_batch_task senv env q jq (spotify_download tracks sids q)).2.jobs[i]? =
        some mj ∧
      0 < (spotify_after_phase1 senv (spotify_download tracks sids q)).failed ∧
      (spotify_after_phase1 senv (spotify_download tracks sids q)).failed =
        (spotify_download tracks sids q).jobs.countP
          (fun mj => (senv (mj.search_query.getD mj.title)).isNone) := by
  have hmem : mj0 ∈ (spotify_download tracks sids q).jobs := List.getElem?_mem hm
  obtain ⟨hh0, -⟩ := spotify_download_member_shape tracks sids q mj0 hmem
  have hp1jobs : (spotify_after_phase1 senv (spotify_download tracks sids q)).jobs =
      (spotify_download tracks sids q).jobs.map (phase1Member senv) :=
    phase1Go_jobs senv 0 _ _ _
  have hmj : phase1Member senv mj0 =
      { pushStatus .error mj0 with error := some "No YouTube match found" } :=
    phase1Member_nomatch senv mj0 hs
  have hist : (phase1Member senv mj0).history = [Status.searching, Status.error] := by
    rw [hmj]
    show mj0.history ++ [Status.error] = _
    rw [hh0]
    rfl
  have hstatus : (phase1Member senv mj0).status = Status.error := by rw [hmj]; rfl
  refine ⟨phase1Member senv mj0, ?_, hstatus, by rw [hmj], hist, ?_, ?_, ?_, ?_⟩
  · rw [hp1jobs, List.getElem?_map, hm]
    rfl
  · rw [hist]
    decide
  · have hjobs2 : (spotify_batch_task senv env q jq (spotify_download tracks sids q)).2.jobs =
        ((spotify_download tracks sids q).jobs.map (phase1Member senv)).map
          (phase2Member env q) := by
      show (phase2Go env q jq 0 _
        (phase1Go senv 0 _ _ (spotify_download tracks sids q).jobs).1
        (phase1Go senv 0 _ _ (spotify_download tracks sids q).jobs).2.1
        (phase1Go senv 0 _ _ (spotify_download tracks sids q).jobs).2.2).2.2.2.2 = _
      rw [phase2Go_jobs, phase1Go_jobs]
    rw [hjobs2, List.getElem?_map, List.getElem?_map, hm]
    show some (phase2Member env q (phase1Member senv mj0)) = _
    rw [phase2Member_skip env q _ (by simp [phase2Processes, hstatus])]
  · have hfail : (spotify_after_phase1 senv (spotify_download tracks sids q)).failed =
        (spotify_download tracks sids q).failed +
          (spotify_download tracks sids q).jobs.countP
            (fun mj => (senv (mj.search_query.getD mj.title)).isNone) :=
      phase1Go_failed senv 0 _ _ _
    rw [hfail]
    have : 0 < (spotify_download tracks sids q).jobs.countP
        (fun mj => (senv (mj.search_query.getD mj.title)).isNone) :=
      List.countP_pos.mpr ⟨mj0, hmem, by simp [hs]⟩
    omega
  · have hfail : (spotify_after_phase1 senv (spotify_download tracks sids q)).failed =
        (spotify_download tracks sids q).failed +
          (spotify_download tracks sids q).jobs.countP
            (fun mj => (senv (mj.search_query.getD mj.title)).isNone) :=
      phase1Go_failed senv 0 _ _ _
    rw [hfail, show (spotify_download tracks sids q).failed = 0 from rfl, Nat.zero_add]

theorem C6_no_match_witness :
    ∃ mj,
      (spotify_after_phase1 senvNone (spotify_download [trkTA] ["j1"] "192")).jobs[0]? =
        some mj ∧
      mj.status = Status.error ∧
      mj.error = some "No YouTube match found" ∧
      mj.history = [Status.searching, Status.error] ∧
      Status.downloading ∉ mj.history ∧
      (spotify_batch_task senvNone envSong "192" []
        (spotify_download [trkTA] ["j1"] "192")).2.jobs[0]? = some mj ∧
      0 < (spotify_after_phase1 senvNone (spotify_download [trkTA] ["j1"] "192")).failed ∧
      (spotify_after_phase1 senvNone (spotify_download [trkTA] ["j1"] "192")).failed =
        (spotify_download [trkTA] ["j1"] "192").jobs.countP
          (fun mj => (senvNone (mj.search_query.getD mj.title)).isNone) :=
  C6_no_match senvNone envSong "192" [] [trkTA] ["j1"] 0 (mkSpotifyJob "j1" trkTA) rfl rfl

end YTApp
